import Mathlib

/-!
# Formal model of the Tutor hook registry and job engine

This file gives a shallow embedding, in Lean 4, of the parts of the Tutor
code base that the specification claims are about:

* `tutor/hooks.py` — the `_HookCallbackRegistry` singleton together with the
  `Filter.apply` value-threading pipeline (registration, priority-ordered
  insertion, context filtering, clearing);
* `tutor/hooks/actions.py` — the `Actions.on` registry with its
  `priority or DEFAULT_PRIORITY` normalisation;
* `tutor/jobs.py` — `BaseJobRunner.run_job` (prerequisite recursion with
  cycle detection, scope-limited task collection, sequential task execution);
* `tutor/commands/k8s.py` — `K8sJobRunner.run_task` (exclusivity wait,
  submission, poll-to-completion loop).

Python state is made explicit: the registry is a function from hook names to
registration lists, the recursion of `run_job` carries a fuel parameter
(running out of fuel is reported by a dedicated error value, shown impossible
for sufficiently large fuel), and the cluster backend is a function of the
sequences of responses returned by the external collaborators.
-/

namespace Tutor

/-- The lexicographic "priority first, then insertion index" relation used to
state that registration lists are stably sorted. -/
def lexRel (key : α → Int) (idx : α → Nat) (x y : α) : Prop :=
  key x < key y ∨ (key x = key y ∧ idx x < idx y)

/-- The insertion scan shared by `_HookCallbackRegistry.register`
(`tutor/hooks.py`) and `Actions.on` (`tutor/hooks/actions.py`): walk past
every element whose priority is `<=` the new one and insert there. -/
def insertLE (key : α → Int) : List α → α → List α
  | [], a => [a]
  | x :: xs, a => if key x ≤ key a then x :: insertLE key xs a else a :: x :: xs

theorem mem_insertLE (key : α → Int) (l : List α) (a x : α)
    (h : x ∈ insertLE key l a) : x ∈ l ∨ x = a := by
  induction l with
  | nil =>
    simp only [insertLE, List.mem_singleton] at h
    exact Or.inr h
  | cons y ys ih =>
    simp only [insertLE] at h
    by_cases hk : key y ≤ key a
    · rw [if_pos hk] at h
      rcases List.mem_cons.mp h with h2 | h2
      · exact Or.inl (by simp [h2])
      · rcases ih h2 with h3 | h3
        · exact Or.inl (List.mem_cons_of_mem _ h3)
        · exact Or.inr h3
    · rw [if_neg hk] at h
      rcases List.mem_cons.mp h with h2 | h2
      · exact Or.inr h2
      · exact Or.inl h2

theorem pairwise_insertLE (key : α → Int) (idx : α → Nat) (l : List α) (a : α)
    (hl : l.Pairwise (lexRel key idx)) (hidx : ∀ x ∈ l, idx x < idx a) :
    (insertLE key l a).Pairwise (lexRel key idx) := by
  induction l with
  | nil => simp [insertLE]
  | cons y ys ih =>
    rcases List.pairwise_cons.mp hl with ⟨hy, hys⟩
    simp only [insertLE]
    by_cases hk : key y ≤ key a
    · rw [if_pos hk]
      refine List.pairwise_cons.mpr ⟨?_, ih hys (fun x hx => hidx x (by simp [hx]))⟩
      intro z hz
      rcases mem_insertLE key ys a z hz with h | h
      · exact hy z h
      · subst h
        rcases lt_or_eq_of_le hk with h2 | h2
        · exact Or.inl h2
        · exact Or.inr ⟨h2, hidx y (by simp)⟩
    · rw [if_neg hk]
      push_neg at hk
      refine List.pairwise_cons.mpr ⟨?_, hl⟩
      intro z hz
      rcases List.mem_cons.mp hz with h | h
      · subst h
        exact Or.inl hk
      · have h2 : key y ≤ key z := by
          rcases hy z h with h3 | h3
          · exact le_of_lt h3
          · exact le_of_eq h3.1
        exact Or.inl (lt_of_lt_of_le hk h2)

/-! ## The hook callback registry (`tutor/hooks.py`) -/

/-- One entry of `_HookCallbackRegistry.registrations_by_hook` (class
`_HookCallbackRegistration`): the frozen set of contexts captured from the
context stack at registration time (only membership is ever queried, so it is
kept as a list), the callback, and the priority (already normalised by
`priority or 0`). -/
structure Registration (C : Type) where
  contexts : List String
  callback : C
  priority : Int
deriving DecidableEq

/-- `_HookCallbackRegistry.registrations_by_hook`: a mapping from hook name
to its ordered registrations; absent keys behave as the empty list. -/
def Registry (C : Type) : Type := String → List (Registration C)

def registryEmpty (C : Type) : Registry C := fun _ => []

/-- The test `(not context) or context in registration.contexts` of
`_HookCallbackRegistry.get` (and, with a non-optional string, the test of
`Contextualized.is_in_context`): a falsy context — `None` or the empty
string — matches every registration. -/
def contextMatchesB (context : Option String) (regContexts : List String) : Bool :=
  match context with
  | none => true
  | some c => c == "" || regContexts.contains c

/-- `_HookCallbackRegistry.register`: build the new registration with the
current context stack and `priority or 0`, then scan past all entries whose
priority is `<=` the new one and insert there (stable for equal priorities). -/
def registryRegister (r : Registry C) (currentContexts : List String)
    (name : String) (cb : C) (priority : Option Int) : Registry C :=
  fun n =>
    if n = name then
      insertLE (fun reg => reg.priority) (r name)
        { contexts := currentContexts, callback := cb, priority := priority.getD 0 }
    else r n

/-- `_HookCallbackRegistry.get`: yield the callbacks of the registrations
matching the requested context, in registration-list order. -/
def registryGet (r : Registry C) (name : String) (context : Option String) :
    List C :=
  ((r name).filter (fun reg => contextMatchesB context reg.contexts)).map
    (fun reg => reg.callback)

/-- The test `context and context not in registration.contexts` of
`_HookCallbackRegistry.clear`: a registration survives the clear exactly when
the requested context is truthy and does not appear in its context set. -/
def keepOnClear (context : Option String) (regContexts : List String) : Bool :=
  match context with
  | none => false
  | some c => !(c == "") && !(regContexts.contains c)

/-- `_HookCallbackRegistry.clear`: rebuild the registration list of one hook,
keeping the registrations selected by `keepOnClear`; other hooks are
untouched. -/
def registryClear (r : Registry C) (name : String) (context : Option String) :
    Registry C :=
  fun n =>
    if n = name then (r name).filter (fun reg => keepOnClear context reg.contexts)
    else r n

/-- `Filter.apply`: thread the starting value through the callbacks selected
by `registryGet`, each receiving the running value. -/
def filterApply (r : Registry (α → α)) (name : String) (context : Option String)
    (startingValue : α) : α :=
  (registryGet r name context).foldl (fun v cb => cb v) startingValue

/-- The anonymous callback registered by `Filter.add_items` (and
`Filter.add_item`): append a fixed list of items to the running value. -/
def addItemsCallback (items : List α) : List α → List α :=
  fun value => value ++ items

/-- The registry of the scope-isolation scenario: `add_item` of `1` under
context `"ctx1"`, then `add_item` of `2` with no active context. -/
def scopeScenarioRegistry : Registry (List Nat → List Nat) :=
  registryRegister
    (registryRegister (registryEmpty _) ["ctx1"] "f" (addItemsCallback [1]) none)
    [] "f" (addItemsCallback [2]) none

/-- The same two registrations with opaque callback identifiers `1` and `2`,
used to state which registrations are selected or removed. -/
def scopeScenarioIds : Registry Nat :=
  registryRegister (registryRegister (registryEmpty _) ["ctx1"] "f" 1 none)
    [] "f" 2 none

/-- Repeatedly `register` on the single hook `"h"` with no active context;
the k-th call registers callback identifier `k` with the k-th priority
argument, mirroring a sequence of `add` calls. -/
def registerSeqAux : Nat → Registry Nat → List (Option Int) → Registry Nat
  | _, r, [] => r
  | n, r, p :: rest => registerSeqAux (n + 1) (registryRegister r [] "h" n p) rest

def registerSeq (ps : List (Option Int)) : Registry Nat :=
  registerSeqAux 0 (registryEmpty _) ps

/-! ## The actions registry (`tutor/hooks/actions.py`) -/

def DEFAULT_PRIORITY : Int := 10

/-- `self.priority = priority or DEFAULT_PRIORITY` in `Action.__init__`: a
falsy priority argument — `None` or `0` — is replaced by the default. -/
def storedPriority (priority : Option Int) : Int :=
  match priority with
  | none => DEFAULT_PRIORITY
  | some v => if v = 0 then DEFAULT_PRIORITY else v

/-- One `Action` object held in `Actions.actions[name]`: the callback
(`func`, kept as an opaque identifier), the priority argument passed to
`Actions.on`, and the stored priority computed by `Action.__init__`. -/
structure ActionReg where
  id : Nat
  given : Option Int
  priority : Int
deriving DecidableEq

/-- `Actions.on`: construct the `Action` and insert it with the `<=` scan. -/
def actionsOn (actions : List ActionReg) (id : Nat) (priority : Option Int) :
    List ActionReg :=
  insertLE (fun a => a.priority) actions
    { id := id, given := priority, priority := storedPriority priority }

/-- Run a whole sequence of `Actions.on` calls for one action name; the k-th
call registers callback identifier `k` with the k-th priority argument. -/
def buildActionsAux : Nat → List ActionReg → List (Option Int) → List ActionReg
  | _, acc, [] => acc
  | n, acc, p :: rest => buildActionsAux (n + 1) (actionsOn acc n p) rest

def buildActions (ps : List (Option Int)) : List ActionReg :=
  buildActionsAux 0 [] ps

/-! ## The job engine (`tutor/jobs.py`)

Job and task declarations are contributed through `Filter.add_items`, whose
anonymous callbacks append a fixed item list; a declarative filter is
therefore faithfully described by its registrations' context sets and item
lists, in registration order (all these registrations carry the default
priority `0`, so registration order is insertion order). -/

/-- One `add_items` registration of a declarative filter: the context set
captured at registration time and the contributed items. -/
structure Decl (τ : Type) where
  contexts : List String
  items : List τ
deriving DecidableEq

/-- `Filter.iterate(context=...)`: apply all matching callbacks to `[]`; for
`add_items` callbacks this concatenates the matching item lists in
registration order. -/
def iterateDecls (decls : List (Decl τ)) (context : Option String) : List τ :=
  (decls.filter (fun d => contextMatchesB context d.contexts)).flatMap
    (fun d => d.items)

/-- The declarative filters read by `BaseJobRunner.run_job`:
`JOB_TASKS` items are `(jobName, service, command)`, `JOB_PREREQS` items are
`(jobName, prerequisiteJobName)` edges, and the two legacy `COMMANDS_INIT` /
`COMMANDS_PRE_INIT` filters hold `(service, template path)` pairs. -/
structure JobDecls where
  jobTasks : List (Decl (String × String × List String))
  jobPrereqs : List (Decl (String × String))
  commandsInit : List (Decl (String × List String))
  commandsPreInit : List (Decl (String × List String))

/-- `Contexts.APP`: the context string of a core app or plugin scope. -/
def appContext (name : String) : String := "app:" ++ name

/-- Errors raised by `run_job`: the cyclic-prerequisite `TutorError` of lines
51–57 of `tutor/jobs.py` (carrying the two job names of the detected edge and
the call chain that appear in its message), plus the artificial `outOfFuel`
marker reporting that the modelled recursion ran out of fuel. -/
inductive JobError where
  | cyclic (jobName prereqName : String) (chain : List String)
  | outOfFuel
deriving DecidableEq

/-- One task handed to `BaseJobRunner.run_task`: the service and the argument
vector (`utils.shlex_join`'s later flattening to one command string is kept
as the vector). The `job` field is ghost instrumentation recording which
job's task list the entry was collected from; it does not influence the
computation. -/
structure ExecTask where
  job : String
  service : String
  argv : List String
deriving DecidableEq

/-- Lines 65–98 of `tutor/jobs.py`: collect the tasks of one job — the
`JOB_TASKS` entries matching the job name, looked up under the limited
context, followed by the rendered legacy `COMMANDS_INIT` /
`COMMANDS_PRE_INIT` entries — with `extra_args` appended to each command. -/
def collectTasks (env : JobDecls) (render : List String → String)
    (jobName : String) (limitedContext : Option String)
    (extraArgs : List String) : List ExecTask :=
  let jobTasks := iterateDecls env.jobTasks limitedContext
  let base := (jobTasks.filter (fun x => x.1 == jobName)).map
    (fun x => ExecTask.mk jobName x.2.1 (x.2.2 ++ extraArgs))
  let compat :=
    if jobName == "init" then iterateDecls env.commandsInit limitedContext
    else if jobName == "pre-init" then iterateDecls env.commandsPreInit limitedContext
    else []
  base ++ compat.map (fun sc => ExecTask.mk jobName sc.1
    (["sh", "-c", render sc.2] ++ extraArgs))

/-- The prerequisite loop of `run_job` (lines 44–63 of `tutor/jobs.py`): walk
the `JOB_PREREQS` edges in order; at each edge whose source is the requested
job, raise the cyclic error if the call stack is non-empty and already
contains the job, and otherwise recursively run the prerequisite first with
the job appended to the stack. The first component collects every task handed
to the backend before the (optional) error. -/
def runEdges (recur : String → List String → List ExecTask × Option JobError)
    (jobName : String) (stack : List String) :
    List (String × String) → List ExecTask × Option JobError
  | [] => ([], none)
  | (name, prereqName) :: rest =>
    if name = jobName then
      if stack ≠ [] ∧ jobName ∈ stack then
        ([], some (.cyclic jobName prereqName stack))
      else
        match recur prereqName (stack ++ [jobName]) with
        | (tr, some e) => (tr, some e)
        | (tr, none) =>
          match runEdges recur jobName stack rest with
          | (tr2, e2) => (tr ++ tr2, e2)
    else runEdges recur jobName stack rest

/-- `BaseJobRunner.run_job`, with explicit fuel for the recursion: run the
prerequisite loop over `JOB_PREREQS.iterate()` (note: looked up with no
context restriction), then collect this job's tasks under the limited context
(`Contexts.APP(limit_to)` when `limit_to` is truthy) and hand them to the
backend in order. -/
def runJobFuel (env : JobDecls) (render : List String → String)
    (limitTo : String) (extraArgs : List String) :
    Nat → String → List String → List ExecTask × Option JobError
  | 0 => fun _ _ => ([], some .outOfFuel)
  | fuel + 1 => fun jobName stack =>
    match runEdges (runJobFuel env render limitTo extraArgs fuel) jobName stack
        (iterateDecls env.jobPrereqs none) with
    | (tr, some e) => (tr, some e)
    | (tr, none) =>
      let limitedContext := if limitTo = "" then none else some (appContext limitTo)
      (tr ++ collectTasks env render jobName limitedContext extraArgs, none)

/-! ## The cluster backend (`tutor/commands/k8s.py`) -/

/-- One response of the `list_namespaced_job` collaborator filtered by
`metadata.name`, as consumed by the completion loop of
`K8sJobRunner.run_task`: either the job is not found (`items` empty) or its
status is reported with the truthiness of the `active`, `succeeded` and
`failed` fields. -/
inductive JobStatusResp where
  | notFound
  | found (active succeeded failed : Bool)
deriving DecidableEq

/-- The observable steps of `K8sJobRunner.run_task`: polling the set of
active task names, sleeping for the fixed 5-second interval, submitting the
patched manifest (`kubectl_apply`, together with the preceding patching and
persisting of the manifest), and polling the submitted job's status. -/
inductive K8sEvent where
  | pollActiveJobs (names : List String)
  | sleepFive
  | submitJob
  | pollJobStatus (resp : JobStatusResp)
deriving DecidableEq

/-- The exclusivity-wait loop of `K8sJobRunner.run_task` (lines 100–108):
poll `active_task_names()`; break as soon as the list is empty, otherwise
sleep 5 seconds and poll again. The boolean reports whether the loop broke
within the supplied responses. -/
def exclusivityLoop : List (List String) → List K8sEvent × Bool
  | [] => ([], false)
  | names :: rest =>
    if names = [] then ([.pollActiveJobs names], true)
    else
      match exclusivityLoop rest with
      | (es, b) => (.pollActiveJobs names :: .sleepFive :: es, b)

/-- The result of one `K8sJobRunner.run_task` call: either the `return 0`
at the end of the method, or the raised `TutorError` with its message. -/
inductive K8sOutcome where
  | exitCode (code : Nat)
  | tutorError (message : String)
deriving DecidableEq

/-- The completion loop of `K8sJobRunner.run_task` (lines 149–167): poll the
job by name; when the response has no items, loop again immediately
(`continue` — no sleep); when the job is inactive, a truthy `succeeded`
breaks with result `0` and a truthy `failed` raises the `TutorError` naming
the task; in every remaining case sleep 5 seconds and poll again. `none`
means the supplied responses were exhausted with the loop still running. -/
def completionLoop (taskName : String) :
    List JobStatusResp → List K8sEvent × Option K8sOutcome
  | [] => ([], none)
  | resp :: rest =>
    match resp with
    | .notFound =>
      match completionLoop taskName rest with
      | (es, out) => (.pollJobStatus resp :: es, out)
    | .found active succeeded failed =>
      if active then
        match completionLoop taskName rest with
        | (es, out) => (.pollJobStatus resp :: .sleepFive :: es, out)
      else if succeeded then
        ([.pollJobStatus resp], some (.exitCode 0))
      else if failed then
        ([.pollJobStatus resp],
          some (.tutorError ("Task " ++ taskName ++
            " failed. View the task logs to debug this issue.")))
      else
        match completionLoop taskName rest with
        | (es, out) => (.pollJobStatus resp :: .sleepFive :: es, out)

/-- `K8sJobRunner.run_task` as a whole: wait for exclusivity, submit the
patched job manifest, then wait for completion. The outcome is `none` while
a loop is still waiting at the end of the supplied responses. -/
def runTaskK8s (taskName : String) (activeResponses : List (List String))
    (statusResponses : List JobStatusResp) :
    List K8sEvent × Option K8sOutcome :=
  match exclusivityLoop activeResponses with
  | (es, false) => (es, none)
  | (es, true) =>
    match completionLoop taskName statusResponses with
    | (es2, out) => (es ++ .submitJob :: es2, out)

/-! ## Concrete scenario inputs used by the claims -/

/-- A rendering collaborator returning the empty command; the claims under
scrutiny never depend on rendered template content. -/
def render0 : List String → String := fun _ => ""

/-- Prerequisite declarations consisting exactly of the two edges
`init → pre-init` and `pre-init → init`. -/
def env1 : JobDecls :=
  { jobTasks := [], jobPrereqs := [⟨[], [("init", "pre-init"), ("pre-init", "init")]⟩],
    commandsInit := [], commandsPreInit := [] }

/-- Prerequisite declarations containing the two edges `init → pre-init` and
`pre-init → init`, plus the extra edges `init → a` and `a → init` listed
first. -/
def env1cex : JobDecls :=
  { jobTasks := [],
    jobPrereqs :=
      [⟨[], [("init", "a"), ("a", "init"), ("init", "pre-init"), ("pre-init", "init")]⟩],
    commandsInit := [], commandsPreInit := [] }

/-- The prerequisite-ordering scenario: the edge `init → pre-init` and one
distinct task declared for each of the two jobs. -/
def env5 : JobDecls :=
  { jobTasks := [⟨[], [("pre-init", "svcP", ["p"]), ("init", "svcI", ["i"])]⟩],
    jobPrereqs := [⟨[], [("init", "pre-init")]⟩],
    commandsInit := [], commandsPreInit := [] }

/-- Scope-restriction scenario: tasks for jobs `preX` and `init` declared
under the `app:lms` scope, and a prerequisite edge `init → preX` declared
under the `app:cms` scope only. -/
def env6 : JobDecls :=
  { jobTasks := [⟨["app:lms"], [("preX", "svcA", ["cmdA"]), ("init", "svcB", ["cmdB"])]⟩],
    jobPrereqs := [⟨["app:cms"], [("init", "preX")]⟩],
    commandsInit := [], commandsPreInit := [] }

/-! ## C2: stable priority-ascending registration order -/

theorem registerSeqAux_pairwise (ps : List (Option Int)) :
    ∀ (n : Nat) (r : Registry Nat),
      ((r "h").Pairwise
        (lexRel (fun reg => reg.priority) (fun reg => reg.callback))) →
      (∀ x ∈ r "h", x.callback < n) →
      ((registerSeqAux n r ps) "h").Pairwise
        (lexRel (fun reg => reg.priority) (fun reg => reg.callback)) := by
  induction ps with
  | nil => intro n r h _; exact h
  | cons p rest ih =>
    intro n r h hb
    refine ih (n + 1) (registryRegister r [] "h" n p) ?_ ?_
    · simp only [registryRegister, if_pos rfl]
      exact pairwise_insertLE _ _ _ _ h (fun x hx => hb x hx)
    · intro x hx
      simp only [registryRegister, if_pos rfl] at hx
      rcases mem_insertLE _ _ _ _ hx with h2 | h2
      · exact Nat.lt_succ_of_lt (hb x h2)
      · subst h2; exact Nat.lt_succ_self n

/-- C2. Registrations for a hook name are kept ordered ascending by priority,
and registrations with equal priority keep their insertion order (the list is
sorted by the pair (priority, insertion index)); in particular after
`add(A, priority=10)`, `add(B, priority=5)`, `add(C, priority=10)` the
callbacks are visited in the order B, A, C. -/
theorem c2_stable_priority_order :
    (∀ ps : List (Option Int),
      ((registerSeq ps) "h").Pairwise (fun x y =>
        x.priority < y.priority ∨ (x.priority = y.priority ∧ x.callback < y.callback))) ∧
    registryGet (registerSeq [some 10, some 5, some 10]) "h" none = [1, 0, 2] := by
  constructor
  · intro ps
    exact registerSeqAux_pairwise ps 0 (registryEmpty _)
      (by simp [registryEmpty]) (by simp [registryEmpty])
  · decide

/-! ## C10: a falsy priority argument is replaced by the default 10 -/

theorem buildActionsAux_invariant (ps : List (Option Int)) :
    ∀ (n : Nat) (acc : List ActionReg),
      (acc.Pairwise (lexRel (fun a => a.priority) (fun a => a.id))) →
      (∀ x ∈ acc, x.id < n) →
      (∀ x ∈ acc, x.priority = storedPriority x.given) →
      ((buildActionsAux n acc ps).Pairwise
          (lexRel (fun a => a.priority) (fun a => a.id)) ∧
        ∀ x ∈ buildActionsAux n acc ps, x.priority = storedPriority x.given) := by
  induction ps with
  | nil => intro n acc h _ hs; exact ⟨h, hs⟩
  | cons p rest ih =>
    intro n acc h hb hs
    refine ih (n + 1) (actionsOn acc n p) ?_ ?_ ?_
    · exact pairwise_insertLE _ _ _ _ h (fun x hx => hb x hx)
    · intro x hx
      rcases mem_insertLE _ _ _ _ hx with h2 | h2
      · exact Nat.lt_succ_of_lt (hb x h2)
      · subst h2; exact Nat.lt_succ_self n
    · intro x hx
      rcases mem_insertLE _ _ _ _ hx with h2 | h2
      · exact hs x h2
      · subst h2; rfl

/-- C10. In the actions registry, a callback registered with an explicit
priority of `0` is stored with the default priority `10` (any falsy priority
argument is replaced by `DEFAULT_PRIORITY`), the registration list is always
sorted ascending by stored priority (stably), and consequently, in every
registration sequence, a priority-`0` registration is ordered after every
callback whose stored priority lies in `1..9`. -/
theorem c10_priority_zero_default :
    storedPriority (some 0) = DEFAULT_PRIORITY ∧
    (∀ ps : List (Option Int),
      (buildActions ps).Pairwise (fun x y =>
        x.priority < y.priority ∨ (x.priority = y.priority ∧ x.id < y.id))) ∧
    (∀ ps : List (Option Int), ∀ i j : Fin (buildActions ps).length,
      1 ≤ ((buildActions ps).get i).priority →
      ((buildActions ps).get i).priority ≤ 9 →
      ((buildActions ps).get j).given = some 0 →
      i < j) := by
  have key : ∀ ps : List (Option Int),
      ((buildActions ps).Pairwise
          (lexRel (fun a => a.priority) (fun a => a.id)) ∧
        ∀ x ∈ buildActions ps, x.priority = storedPriority x.given) := by
    intro ps
    exact buildActionsAux_invariant ps 0 [] (by simp) (by simp) (by simp)
  refine ⟨rfl, fun ps => (key ps).1, ?_⟩
  intro ps i j h1 h9 hj
  have hpj : ((buildActions ps).get j).priority = 10 := by
    have hm := (key ps).2 ((buildActions ps).get j)
      (List.get_mem (buildActions ps) j.val j.isLt)
    rw [hm, hj]
    rfl
  by_contra hcon
  push_neg at hcon
  rcases lt_or_eq_of_le hcon with hlt | heq
  · have hrel := (List.pairwise_iff_get.mp (key ps).1) j i hlt
    have hrel2 : ((buildActions ps).get j).priority < ((buildActions ps).get i).priority
        ∨ (((buildActions ps).get j).priority = ((buildActions ps).get i).priority
            ∧ ((buildActions ps).get j).id < ((buildActions ps).get i).id) := hrel
    omega
  · have hpi : ((buildActions ps).get i).priority = 10 := by
      rw [← heq]
      exact hpj
    omega

/-- Witness for C10 with the registration sequence
`on(priority=5); on(priority=0); on(priority=3)`: the priority-`0`
registration (identifier `1`) ends up after the priority-`5` one. -/
theorem c10_priority_zero_default_witness :
    1 ≤ ((buildActions [some 5, some 0, some 3]).get ⟨1, by decide⟩).priority ∧
    ((buildActions [some 5, some 0, some 3]).get ⟨1, by decide⟩).priority ≤ 9 ∧
    ((buildActions [some 5, some 0, some 3]).get ⟨2, by decide⟩).given = some 0 ∧
    (⟨1, by decide⟩ : Fin (buildActions [some 5, some 0, some 3]).length) < ⟨2, by decide⟩ :=
  ⟨by decide, by decide, by decide,
    c10_priority_zero_default.2.2 [some 5, some 0, some 3] ⟨1, by decide⟩ ⟨2, by decide⟩
      (by decide) (by decide) (by decide)⟩

/-! ## C3 and C4: context selection and clearing -/

theorem contextMatchesB_of_ne (c : String) (hc : c ≠ "") (l : List String) :
    contextMatchesB (some c) l = l.contains c := by
  simp only [contextMatchesB]
  rw [beq_eq_false_iff_ne.mpr hc]
  simp

theorem keepOnClear_of_ne (c : String) (hc : c ≠ "") (l : List String) :
    keepOnClear (some c) l = !(l.contains c) := by
  simp only [keepOnClear]
  rw [beq_eq_false_iff_ne.mpr hc]
  simp

/-- C3, counterexample to the claim as stated: in the scope-isolation
registry, applying with the empty-string scope invokes both registrations,
although neither registration's scope set contains the empty string (the
claim requires that exactly the registrations whose scope set contains the
given scope be invoked, i.e. none of them). -/
theorem c3_counterexample :
    registryGet scopeScenarioIds "f" (some "") = [1, 2] ∧
    (scopeScenarioIds "f").all (fun reg => !(reg.contexts.contains "")) = true := by
  decide

/-- C3 (amended). Applying a filter with a non-empty scope argument invokes
exactly the registrations whose scope set contains that scope, in
registration order; applying with the scope omitted — or equal to the falsy
empty string — invokes all registrations. In particular, after an `add_item`
of value `1` under scope `"ctx1"` and an unscoped `add_item` of value `2`,
`apply([], scope="ctx1")` returns `[1]` and `apply([], scope=None)` returns
`[1, 2]`. -/
theorem c3_scope_selection :
    (∀ (C : Type) (r : Registry C) (name c : String), c ≠ "" →
      registryGet r name (some c) =
        ((r name).filter (fun reg => reg.contexts.contains c)).map
          (fun reg => reg.callback)) ∧
    (∀ (C : Type) (r : Registry C) (name : String),
      registryGet r name none = (r name).map (fun reg => reg.callback)) ∧
    (∀ (C : Type) (r : Registry C) (name : String),
      registryGet r name (some "") = (r name).map (fun reg => reg.callback)) ∧
    filterApply scopeScenarioRegistry "f" (some "ctx1") [] = [1] ∧
    filterApply scopeScenarioRegistry "f" none [] = [1, 2] := by
  refine ⟨?_, ?_, ?_, by decide, by decide⟩
  · intro C r name c hc
    unfold registryGet
    congr 1
    apply List.filter_congr
    intro reg _
    exact contextMatchesB_of_ne c hc reg.contexts
  · intro C r name
    simp [registryGet, contextMatchesB]
  · intro C r name
    simp [registryGet, contextMatchesB]

/-- Witness for C3 at the concrete scope `"ctx1"` on the identifier
registry. -/
theorem c3_scope_selection_witness :
    ("ctx1" : String) ≠ "" ∧
    registryGet scopeScenarioIds "f" (some "ctx1") =
      ((scopeScenarioIds "f").filter (fun reg => reg.contexts.contains "ctx1")).map
        (fun reg => reg.callback) :=
  ⟨by decide, c3_scope_selection.1 Nat scopeScenarioIds "f" "ctx1" (by decide)⟩

/-- C4, counterexample to the claim as stated: clearing hook `"f"` with the
empty-string scope removes both registrations, although neither
registration's scope set contains the empty string (the claim requires that
exactly the registrations whose scope set contains the given scope be
removed, i.e. none of them). -/
theorem c4_counterexample :
    (registryClear scopeScenarioIds "f" (some "")) "f" = [] ∧
    (scopeScenarioIds "f").length = 2 ∧
    (scopeScenarioIds "f").all (fun reg => !(reg.contexts.contains "")) = true := by
  decide

/-- C4 (amended). For every registry state, `clear(name, scope)` with a
non-empty scope removes exactly the registrations for that hook name whose
scope set contains the given scope, leaving every other registration (other
hook names, and the other-scope registrations of this name, in order)
unchanged, so a subsequent `get`/`apply` no longer selects the removed
registrations but selects the rest as before; `clear` with the scope omitted
— or equal to the falsy empty string — removes all registrations of that
hook name. -/
theorem c4_clear_by_scope :
    (∀ (C : Type) (r : Registry C) (name c : String), c ≠ "" →
      (registryClear r name (some c)) name =
        (r name).filter (fun reg => !(reg.contexts.contains c))) ∧
    (∀ (C : Type) (r : Registry C) (name : String) (context : Option String)
        (n : String), n ≠ name → (registryClear r name context) n = r n) ∧
    (∀ (C : Type) (r : Registry C) (name c : String) (context2 : Option String),
      c ≠ "" →
      registryGet (registryClear r name (some c)) name context2 =
        ((r name).filter (fun reg =>
          contextMatchesB context2 reg.contexts && !(reg.contexts.contains c))).map
          (fun reg => reg.callback)) ∧
    (∀ (C : Type) (r : Registry C) (name : String) (context : Option String)
        (context2 : Option String) (n : String), n ≠ name →
      registryGet (registryClear r name context) n context2 =
        registryGet r n context2) ∧
    (∀ (C : Type) (r : Registry C) (name : String),
      (registryClear r name none) name = [] ∧
      (registryClear r name (some "")) name = []) := by
  refine ⟨?_, ?_, ?_, ?_, ?_⟩
  · intro C r name c hc
    simp only [registryClear, if_pos rfl]
    apply List.filter_congr
    intro reg _
    exact keepOnClear_of_ne c hc reg.contexts
  · intro C r name context n hn
    simp only [registryClear, if_neg hn]
  · intro C r name c context2 hc
    simp only [registryGet, registryClear, if_pos rfl, if_true]
    rw [List.filter_filter]
    congr 1
    apply List.filter_congr
    intro reg _
    rw [keepOnClear_of_ne c hc reg.contexts]
  · intro C r name context context2 n hn
    simp only [registryGet, registryClear, if_neg hn]
  · intro C r name
    constructor
    · simp [registryClear, keepOnClear]
    · simp [registryClear, keepOnClear]

/-- Witness for C4 at the concrete scope `"ctx1"` on the identifier
registry. -/
theorem c4_clear_by_scope_witness :
    ("ctx1" : String) ≠ "" ∧
    (registryClear scopeScenarioIds "f" (some "ctx1")) "f" =
      (scopeScenarioIds "f").filter (fun reg => !(reg.contexts.contains "ctx1")) :=
  ⟨by decide, c4_clear_by_scope.1 Nat scopeScenarioIds "f" "ctx1" (by decide)⟩

/-! ## C7: the cluster exclusivity wait -/

theorem exclusivityLoop_eq (aR : List (List String)) (k : Nat)
    (hk : k < aR.length) (hempty : aR.getD k [] = [])
    (hbefore : ∀ i, i < k → aR.getD i [] ≠ []) :
    exclusivityLoop aR =
      ((aR.take k).flatMap (fun r => [.pollActiveJobs r, .sleepFive]) ++
        [.pollActiveJobs []], true) := by
  induction aR generalizing k with
  | nil => exact absurd hk (by simp)
  | cons a rest ih =>
    cases k with
    | zero =>
      simp only [List.getD_cons_zero] at hempty
      subst hempty
      simp [exclusivityLoop]
    | succ k =>
      have ha : a ≠ [] := by
        have h0 := hbefore 0 (Nat.succ_pos k)
        simpa using h0
      simp only [List.getD_cons_succ] at hempty
      have hk2 : k < rest.length := by
        simpa [Nat.succ_lt_succ_iff] using hk
      have hb2 : ∀ i, i < k → rest.getD i [] ≠ [] := by
        intro i hi
        have h1 := hbefore (i + 1) (by omega)
        simpa using h1
      simp only [exclusivityLoop, if_neg ha, ih k hk2 hempty hb2]
      simp [List.take_succ_cons]

/-- C7. The cluster backend's `run_task` never submits the patched job
manifest while the set of active jobs in the target namespace is non-empty:
when the k-th poll of `active_task_names` is the first to report no active
jobs, the trace consists of the k non-empty polls, each followed by one
5-second sleep, then the empty poll, then — immediately — the submission,
followed by the completion phase. In particular, with one active job on the
first two polls and zero thereafter, `run_task` blocks through exactly two
poll intervals (two sleeps) before submitting. -/
theorem c7_exclusivity_wait (name : String) (aR : List (List String))
    (sR : List JobStatusResp) (k : Nat)
    (hk : k < aR.length) (hempty : aR.getD k [] = [])
    (hbefore : ∀ i, i < k → aR.getD i [] ≠ []) :
    runTaskK8s name aR sR =
      ((aR.take k).flatMap (fun r => [.pollActiveJobs r, .sleepFive]) ++
        .pollActiveJobs [] :: .submitJob :: (completionLoop name sR).1,
       (completionLoop name sR).2) := by
  have he := exclusivityLoop_eq aR k hk hempty hbefore
  rcases hcl : completionLoop name sR with ⟨es2, out⟩
  simp only [runTaskK8s, he, hcl]
  simp [List.append_assoc]

/-- Witness for C7: the collaborator reports `["j1"]` on the first two polls
and nothing on the third, so the trace holds exactly two sleeps before the
submission. -/
theorem c7_exclusivity_wait_witness :
    (2 < ([["j1"], ["j1"], ([] : List String)]).length ∧
      ([["j1"], ["j1"], ([] : List String)]).getD 2 [] = [] ∧
      ∀ i, i < 2 → ([["j1"], ["j1"], ([] : List String)]).getD i [] ≠ []) ∧
    runTaskK8s "t" [["j1"], ["j1"], []] [.found false true false] =
      ((([["j1"], ["j1"], ([] : List String)]).take 2).flatMap
          (fun r => [.pollActiveJobs r, .sleepFive]) ++
        .pollActiveJobs [] :: .submitJob ::
          (completionLoop "t" [.found false true false]).1,
       (completionLoop "t" [.found false true false]).2) :=
  ⟨⟨by decide, by decide, by decide⟩,
    c7_exclusivity_wait "t" [["j1"], ["j1"], []] [.found false true false] 2
      (by decide) (by decide) (by decide)⟩

/-! ## C8 and C9: the completion loop -/

/-- A status response on which the completion loop keeps waiting: the job is
not found, or it is reported active, or it is inactive with neither the
`succeeded` nor the `failed` flag set. -/
def nonTerminalResp (r : JobStatusResp) : Bool :=
  match r with
  | .notFound => true
  | .found active succeeded failed => active || (!succeeded && !failed)

/-- The events the completion loop emits for a run of non-terminal
responses: one status poll per response, followed by a 5-second sleep unless
the response was "job not found". -/
def statusPollEvents (l : List JobStatusResp) : List K8sEvent :=
  l.flatMap (fun r =>
    match r with
    | .notFound => [.pollJobStatus r]
    | .found _ _ _ => [.pollJobStatus r, .sleepFive])

theorem completionLoop_append_nonTerminal (name : String)
    (l1 l2 : List JobStatusResp) (h : ∀ r ∈ l1, nonTerminalResp r = true) :
    completionLoop name (l1 ++ l2) =
      (statusPollEvents l1 ++ (completionLoop name l2).1,
       (completionLoop name l2).2) := by
  induction l1 with
  | nil => simp [statusPollEvents]
  | cons r rest ih =>
    have hr := h r (List.mem_cons_self r rest)
    have ih2 := ih (fun x hx => h x (List.mem_cons_of_mem r hx))
    cases r with
    | notFound =>
      simp only [List.cons_append, completionLoop, ih2]
      simp [statusPollEvents, ih2]
    | found a s f =>
      cases a with
      | true =>
        simp only [List.cons_append, completionLoop, ih2]
        simp [statusPollEvents, ih2]
      | false =>
        simp only [nonTerminalResp, Bool.false_or, Bool.and_eq_true,
          Bool.not_eq_true'] at hr
        obtain ⟨hs, hf⟩ := hr
        subst hs
        subst hf
        simp only [List.cons_append, completionLoop, ih2]
        simp [statusPollEvents, ih2]

/-- C8, counterexample to the claim as stated: a terminal status carrying
both the `succeeded` and `failed` flags makes `run_task` return exit code 0
(the `succeeded` branch is checked first), although the claim requires a
status carrying the `failed` flag to raise a backend error. -/
theorem c8_counterexample :
    completionLoop "t" [.found false true true] =
      ([.pollJobStatus (.found false true true)], some (.exitCode 0)) := by
  decide

/-- C8 (amended). After submitting a cluster job, for every status sequence
in which the job eventually becomes inactive with a terminal flag after any
run of non-terminal responses: if the inactive status carries the `succeeded`
flag, `run_task` returns exit code 0 (even when the `failed` flag is also
set, since `succeeded` is checked first); if it carries the `failed` flag and
not the `succeeded` flag, `run_task` raises a fatal backend error whose
message names the job. Either way the loop stops at that poll — no automatic
retry of the failed task occurs. -/
theorem c8_terminal_states (name : String) (l1 l2 : List JobStatusResp)
    (succeeded failed : Bool)
    (h : ∀ r ∈ l1, nonTerminalResp r = true) :
    (succeeded = true →
      completionLoop name (l1 ++ .found false succeeded failed :: l2) =
        (statusPollEvents l1 ++ [.pollJobStatus (.found false succeeded failed)],
         some (.exitCode 0))) ∧
    (succeeded = false → failed = true →
      completionLoop name (l1 ++ .found false succeeded failed :: l2) =
        (statusPollEvents l1 ++ [.pollJobStatus (.found false succeeded failed)],
         some (.tutorError ("Task " ++ name ++
           " failed. View the task logs to debug this issue.")))) := by
  constructor
  · intro hs
    subst hs
    rw [completionLoop_append_nonTerminal name l1 _ h]
    simp [completionLoop]
  · intro hs hf
    subst hs
    subst hf
    rw [completionLoop_append_nonTerminal name l1 _ h]
    simp [completionLoop]

/-- Witness for C8: after one active poll and one not-found poll, a
`succeeded` terminal status returns exit code 0, and a `failed` terminal
status raises the error naming task `"t"`. -/
theorem c8_terminal_states_witness :
    (∀ r ∈ ([.found true false false, .notFound] : List JobStatusResp),
      nonTerminalResp r = true) ∧
    completionLoop "t"
        ([.found true false false, .notFound] ++ [.found false true false]) =
      (statusPollEvents [.found true false false, .notFound] ++
        [.pollJobStatus (.found false true false)], some (.exitCode 0)) ∧
    completionLoop "t"
        ([.found true false false, .notFound] ++ [.found false false true]) =
      (statusPollEvents [.found true false false, .notFound] ++
        [.pollJobStatus (.found false false true)],
       some (.tutorError ("Task " ++ "t" ++
         " failed. View the task logs to debug this issue."))) :=
  ⟨by decide,
    (c8_terminal_states "t" [.found true false false, .notFound] [] true false
      (by decide)).1 rfl,
    (c8_terminal_states "t" [.found true false false, .notFound] [] false true
      (by decide)).2 rfl rfl⟩

/-- The separation discipline between adjacent events of the completion
loop's trace: a poll that found the job is followed (if anything follows) by
the 5-second sleep; a not-found poll and a sleep are followed by the next
poll. -/
def stepOK : K8sEvent → K8sEvent → Prop :=
  fun e1 e2 =>
    match e1 with
    | .pollJobStatus .notFound => ∃ r, e2 = .pollJobStatus r
    | .pollJobStatus (.found _ _ _) => e2 = .sleepFive
    | .sleepFive => ∃ r, e2 = .pollJobStatus r
    | _ => True

theorem completionLoop_head (name : String) (l : List JobStatusResp) :
    (completionLoop name l).1 = [] ∨
      ∃ r t, (completionLoop name l).1 = .pollJobStatus r :: t := by
  cases l with
  | nil => exact Or.inl rfl
  | cons r rest =>
    cases r with
    | notFound =>
      rcases h : completionLoop name rest with ⟨es, out⟩
      exact Or.inr ⟨.notFound, es, by simp [completionLoop, h]⟩
    | found a s f =>
      cases a with
      | true =>
        rcases h : completionLoop name rest with ⟨es, out⟩
        exact Or.inr ⟨.found true s f, .sleepFive :: es, by simp [completionLoop, h]⟩
      | false =>
        cases s with
        | true => exact Or.inr ⟨.found false true f, [], by simp [completionLoop]⟩
        | false =>
          cases f with
          | true => exact Or.inr ⟨.found false false true, [], by simp [completionLoop]⟩
          | false =>
            rcases h : completionLoop name rest with ⟨es, out⟩
            exact Or.inr ⟨.found false false false, .sleepFive :: es,
              by simp [completionLoop, h]⟩

/-- C9, counterexample to the claim as stated: a first poll answered with
"job not found" is followed immediately by the next poll — the trace of the
completion loop contains two consecutive status polls and no sleep at all. -/
theorem c9_counterexample :
    (completionLoop "t" [.notFound, .found false true false]).1 =
      [.pollJobStatus .notFound, .pollJobStatus (.found false true false)] ∧
    .sleepFive ∉ (completionLoop "t" [.notFound, .found false true false]).1 := by
  decide

/-- C9 (amended). In the cluster backend's post-submission completion loop,
every status poll whose response reports the job (found) is separated from
the following poll by the fixed 5-second sleep, but a poll whose response is
"job not found" is followed immediately by the next poll with no intervening
sleep: every pair of adjacent trace events satisfies `stepOK`, for every
sequence of status responses. -/
theorem c9_poll_interval (name : String) (l : List JobStatusResp) :
    List.Chain' stepOK (completionLoop name l).1 := by
  induction l with
  | nil => simp [completionLoop]
  | cons r rest ih =>
    have hnext : ∀ b, b ∈ (completionLoop name rest).1.head? →
        ∃ r2, b = K8sEvent.pollJobStatus r2 := by
      intro b hb
      rcases completionLoop_head name rest with h2 | ⟨r2, t2, h2⟩
      · rw [h2] at hb
        simp at hb
      · rw [h2] at hb
        simp at hb
        exact ⟨r2, hb.symm⟩
    cases r with
    | notFound =>
      rcases h : completionLoop name rest with ⟨es, out⟩
      have ih2 : List.Chain' stepOK es := by
        rw [h] at ih
        exact ih
      simp only [completionLoop, h]
      apply List.chain'_cons'.mpr
      refine ⟨?_, ih2⟩
      intro b hb
      have hb2 : b ∈ (completionLoop name rest).1.head? := by
        rw [h]
        exact hb
      exact hnext b hb2
    | found a s f =>
      have sleepCase : List.Chain' stepOK
          (K8sEvent.pollJobStatus (.found a s f) :: .sleepFive ::
            (completionLoop name rest).1) := by
        apply List.chain'_cons.mpr
        refine ⟨rfl, ?_⟩
        apply List.chain'_cons'.mpr
        exact ⟨hnext, ih⟩
      cases a with
      | true =>
        rcases h : completionLoop name rest with ⟨es, out⟩
        simp only [completionLoop, h]
        rw [h] at sleepCase
        exact sleepCase
      | false =>
        cases s with
        | true => simp [completionLoop, List.chain'_singleton]
        | false =>
          cases f with
          | true => simp [completionLoop, List.chain'_singleton]
          | false =>
            rcases h : completionLoop name rest with ⟨es, out⟩
            simp only [completionLoop, h]
            rw [h] at sleepCase
            exact sleepCase

/-! ## C1, C5, C6: the job engine

Unfolding equations for `runJobFuel` and `runEdges`, then the lemmas about
cycle detection, termination, execution order and scope visibility. -/

theorem runJobFuel_zero (env : JobDecls) (render : List String → String)
    (limitTo : String) (extraArgs : List String) (j : String) (s : List String) :
    runJobFuel env render limitTo extraArgs 0 j s = ([], some .outOfFuel) := rfl

theorem runJobFuel_succ (env : JobDecls) (render : List String → String)
    (limitTo : String) (extraArgs : List String) (fuel : Nat) (j : String)
    (s : List String) :
    runJobFuel env render limitTo extraArgs (fuel + 1) j s =
      match runEdges (runJobFuel env render limitTo extraArgs fuel) j s
          (iterateDecls env.jobPrereqs none) with
      | (tr, some e) => (tr, some e)
      | (tr, none) =>
        (tr ++ collectTasks env render j
          (if limitTo = "" then none else some (appContext limitTo)) extraArgs,
         none) := rfl

theorem runEdges_nil (recur : String → List String → List ExecTask × Option JobError)
    (j : String) (s : List String) : runEdges recur j s [] = ([], none) := rfl

theorem runEdges_cons_skip
    (recur : String → List String → List ExecTask × Option JobError)
    (j : String) (s : List String) (name prereqName : String)
    (rest : List (String × String)) (hn : name ≠ j) :
    runEdges recur j s ((name, prereqName) :: rest) = runEdges recur j s rest := by
  simp [runEdges, hn]

theorem runEdges_cons_cycle
    (recur : String → List String → List ExecTask × Option JobError)
    (j : String) (s : List String) (prereqName : String)
    (rest : List (String × String)) (hg : s ≠ [] ∧ j ∈ s) :
    runEdges recur j s ((j, prereqName) :: rest) =
      ([], some (.cyclic j prereqName s)) := by
  simp [runEdges, hg]

theorem runEdges_cons_recur
    (recur : String → List String → List ExecTask × Option JobError)
    (j : String) (s : List String) (prereqName : String)
    (rest : List (String × String)) (hg : ¬(s ≠ [] ∧ j ∈ s)) :
    runEdges recur j s ((j, prereqName) :: rest) =
      match recur prereqName (s ++ [j]) with
      | (tr, some e) => (tr, some e)
      | (tr, none) =>
        match runEdges recur j s rest with
        | (tr2, e2) => (tr ++ tr2, e2) := by
  simp [runEdges, hg]

/-- When the requested job already sits in a non-empty call stack and still
has a matching prerequisite edge, the edge loop raises the cyclic error at
the first matching edge, executing nothing. -/
theorem runEdges_stuck
    (recur : String → List String → List ExecTask × Option JobError)
    (j : String) (s : List String) (l : List (String × String))
    (hs : s ≠ []) (hj : j ∈ s) (hl : ∃ p, (j, p) ∈ l) :
    ∃ p, runEdges recur j s l = ([], some (.cyclic j p s)) := by
  induction l with
  | nil =>
    obtain ⟨p, hp⟩ := hl
    exact absurd hp (List.not_mem_nil _)
  | cons ed rest ih =>
    rcases ed with ⟨name, prereqName⟩
    by_cases hn : j = name
    · subst hn
      exact ⟨prereqName, runEdges_cons_cycle recur j s prereqName rest ⟨hs, hj⟩⟩
    · obtain ⟨p, hp⟩ := hl
      have hp2 : (j, p) ∈ rest := by
        rcases List.mem_cons.mp hp with h2 | h2
        · exact absurd (congrArg Prod.fst h2) hn
        · exact h2
      obtain ⟨p2, hp3⟩ := ih ⟨p, hp2⟩
      exact ⟨p2,
        (runEdges_cons_skip recur j s name prereqName rest (Ne.symm hn)).trans hp3⟩

/-- A `run_job` call for a job that already sits in a non-empty call stack
and has a matching prerequisite edge returns an error with an empty trace,
at every fuel. -/
theorem runJobFuel_stuck (env : JobDecls) (render : List String → String)
    (limitTo : String) (extraArgs : List String) (fuel : Nat) (j : String)
    (s : List String) (hs : s ≠ []) (hj : j ∈ s)
    (hl : ∃ p, (j, p) ∈ iterateDecls env.jobPrereqs none) :
    ∃ e, runJobFuel env render limitTo extraArgs fuel j s = ([], some e) := by
  cases fuel with
  | zero => exact ⟨.outOfFuel, rfl⟩
  | succ fuel =>
    obtain ⟨p, hp⟩ := runEdges_stuck (runJobFuel env render limitTo extraArgs fuel)
      j s (iterateDecls env.jobPrereqs none) hs hj hl
    exact ⟨.cyclic j p s, by rw [runJobFuel_succ, hp]⟩

/-- If the edge list contains an edge from the requested job to a target
whose recursive run is known to fail, the edge loop fails. -/
theorem runEdges_error_of_edge
    (recur : String → List String → List ExecTask × Option JobError)
    (j target : String) (s : List String) (l : List (String × String))
    (hl : (j, target) ∈ l)
    (hrec : ∃ tr e, recur target (s ++ [j]) = (tr, some e)) :
    ∃ tr e, runEdges recur j s l = (tr, some e) := by
  induction l with
  | nil => exact absurd hl (List.not_mem_nil _)
  | cons ed rest ih =>
    rcases ed with ⟨name, prereqName⟩
    by_cases hn : j = name
    · subst hn
      by_cases hg : s ≠ [] ∧ j ∈ s
      · exact ⟨[], .cyclic j prereqName s,
          runEdges_cons_cycle recur j s prereqName rest hg⟩
      · rcases hrr : recur prereqName (s ++ [j]) with ⟨tr1, e1⟩
        cases e1 with
        | some err =>
          refine ⟨tr1, err, ?_⟩
          rw [runEdges_cons_recur recur j s prereqName rest hg, hrr]
        | none =>
          by_cases hpe : prereqName = target
          · subst hpe
            obtain ⟨tr2, e2, hre2⟩ := hrec
            rw [hrr] at hre2
            exact absurd (congrArg Prod.snd hre2) (by simp)
          · have hl2 : (j, target) ∈ rest := by
              rcases List.mem_cons.mp hl with h2 | h2
              · exact absurd (congrArg Prod.snd h2).symm hpe
              · exact h2
            obtain ⟨tr2, e2, hre2⟩ := ih hl2
            refine ⟨tr1 ++ tr2, e2, ?_⟩
            rw [runEdges_cons_recur recur j s prereqName rest hg, hrr, hre2]
    · have hl2 : (j, target) ∈ rest := by
        rcases List.mem_cons.mp hl with h2 | h2
        · exact absurd (congrArg Prod.fst h2) hn
        · exact h2
      obtain ⟨tr2, e2, h3⟩ := ih hl2
      exact ⟨tr2, e2,
        (runEdges_cons_skip recur j s name prereqName rest (Ne.symm hn)).trans h3⟩

/-- With both edges `init → pre-init` and `pre-init → init` declared,
`run_job("init")` fails at every fuel (cycle detection or fuel exhaustion —
the latter is excluded below for sufficient fuel). -/
theorem runJobFuel_cycle_error (env : JobDecls) (render : List String → String)
    (limitTo : String) (extraArgs : List String)
    (h1 : ("init", "pre-init") ∈ iterateDecls env.jobPrereqs none)
    (h2 : ("pre-init", "init") ∈ iterateDecls env.jobPrereqs none) :
    ∀ fuel, ∃ tr e,
      runJobFuel env render limitTo extraArgs fuel "init" [] = (tr, some e) := by
  have hpre : ∀ f2, ∃ tr e,
      runJobFuel env render limitTo extraArgs f2 "pre-init" ["init"] = (tr, some e) := by
    intro f2
    cases f2 with
    | zero => exact ⟨[], .outOfFuel, rfl⟩
    | succ f2 =>
      obtain ⟨e, he⟩ := runJobFuel_stuck env render limitTo extraArgs f2 "init"
        (["init"] ++ ["pre-init"]) (by simp) (by simp) ⟨"pre-init", h1⟩
      obtain ⟨tr, e2, hre⟩ := runEdges_error_of_edge
        (runJobFuel env render limitTo extraArgs f2) "pre-init" "init" ["init"]
        (iterateDecls env.jobPrereqs none) h2 ⟨[], e, he⟩
      exact ⟨tr, e2, by rw [runJobFuel_succ, hre]⟩
  intro fuel
  cases fuel with
  | zero => exact ⟨[], .outOfFuel, rfl⟩
  | succ fuel =>
    obtain ⟨tr0, e0, hp0⟩ := hpre fuel
    obtain ⟨tr, e, hre⟩ := runEdges_error_of_edge
      (runJobFuel env render limitTo extraArgs fuel) "init" "pre-init" []
      (iterateDecls env.jobPrereqs none) h1 ⟨tr0, e0, hp0⟩
    exact ⟨tr, e, by rw [runJobFuel_succ, hre]⟩

/-- The edge loop never reports fuel exhaustion on its own: it can only
propagate it from a recursive call. -/
theorem runEdges_no_outOfFuel
    (recur : String → List String → List ExecTask × Option JobError)
    (j : String) (s : List String) (l : List (String × String))
    (hrec : ∀ p, (j, p) ∈ l → ¬(s ≠ [] ∧ j ∈ s) →
      (recur p (s ++ [j])).2 ≠ some .outOfFuel) :
    (runEdges recur j s l).2 ≠ some .outOfFuel := by
  induction l with
  | nil => simp [runEdges_nil]
  | cons ed rest ih =>
    rcases ed with ⟨name, prereqName⟩
    by_cases hn : j = name
    · subst hn
      by_cases hg : s ≠ [] ∧ j ∈ s
      · rw [runEdges_cons_cycle recur j s prereqName rest hg]
        simp
      · rcases hrr : recur prereqName (s ++ [j]) with ⟨tr1, e1⟩
        have hne := hrec prereqName (by simp) hg
        rw [hrr] at hne
        cases e1 with
        | some err =>
          rw [runEdges_cons_recur recur j s prereqName rest hg, hrr]
          simpa using hne
        | none =>
          have ih2 := ih (fun p hp hg2 => hrec p (List.mem_cons_of_mem _ hp) hg2)
          rcases hr2 : runEdges recur j s rest with ⟨tr2, e2⟩
          rw [hr2] at ih2
          rw [runEdges_cons_recur recur j s prereqName rest hg, hrr, hr2]
          simpa using ih2
    · have ih2 := ih (fun p hp hg2 => hrec p (List.mem_cons_of_mem _ hp) hg2)
      rw [runEdges_cons_skip recur j s name prereqName rest (Ne.symm hn)]
      exact ih2

/-- Fuel sufficiency: along any call chain the stack stays duplicate-free and
inside the set of edge sources, so with fuel exceeding the number of distinct
edge sources the recursion never reports fuel exhaustion. -/
theorem runJobFuel_no_outOfFuel (env : JobDecls) (render : List String → String)
    (limitTo : String) (extraArgs : List String) :
    ∀ (fuel : Nat) (j : String) (s : List String), s.Nodup →
      (∀ x ∈ s, x ∈ ((iterateDecls env.jobPrereqs none).map Prod.fst).dedup) →
      ((iterateDecls env.jobPrereqs none).map Prod.fst).dedup.length + 1 ≤
        fuel + s.length →
      (runJobFuel env render limitTo extraArgs fuel j s).2 ≠ some .outOfFuel := by
  intro fuel
  induction fuel with
  | zero =>
    intro j s hnd hsub hle
    exfalso
    have hsp := (hnd.subperm hsub).length_le
    omega
  | succ fuel ih =>
    intro j s hnd hsub hle
    rw [runJobFuel_succ]
    rcases hre : runEdges (runJobFuel env render limitTo extraArgs fuel) j s
        (iterateDecls env.jobPrereqs none) with ⟨tr, e⟩
    have hno := runEdges_no_outOfFuel (runJobFuel env render limitTo extraArgs fuel)
      j s (iterateDecls env.jobPrereqs none) ?_
    · rw [hre] at hno
      cases e with
      | some err =>
        simpa using hno
      | none => simp
    · intro p hp hg
      apply ih
      · rcases not_and_or.mp hg with h2 | h2
        · have h3 : s = [] := not_not.mp h2
          subst h3
          simp
        · simp [List.nodup_append, hnd, h2]
      · intro x hx
        rcases List.mem_append.mp hx with h2 | h2
        · exact hsub x h2
        · have h3 : x = j := by simpa using h2
          subst h3
          rw [List.mem_dedup]
          exact List.mem_map.mpr ⟨(x, p), hp, rfl⟩
      · simp only [List.length_append, List.length_singleton]
        omega

/-- When every edge out of `init` goes to `pre-init`, the edge loop at call
stack `[init, pre-init]` stops at the first such edge with the exact cyclic
error of the reference scenario. -/
theorem runEdges_cycle_exact
    (recur : String → List String → List ExecTask × Option JobError)
    (l : List (String × String))
    (hmem : ∃ p, ("init", p) ∈ l)
    (honly : ∀ p, ("init", p) ∈ l → p = "pre-init") :
    runEdges recur "init" ["init", "pre-init"] l =
      ([], some (.cyclic "init" "pre-init" ["init", "pre-init"])) := by
  induction l with
  | nil =>
    obtain ⟨p, hp⟩ := hmem
    exact absurd hp (List.not_mem_nil _)
  | cons ed rest ih =>
    rcases ed with ⟨name, prereqName⟩
    by_cases hn : name = "init"
    · subst hn
      have hpre : prereqName = "pre-init" := honly prereqName (by simp)
      subst hpre
      exact runEdges_cons_cycle recur "init" ["init", "pre-init"] "pre-init" rest
        ⟨by simp, by simp⟩
    · have hmem2 : ∃ p, ("init", p) ∈ rest := by
        obtain ⟨p, hp⟩ := hmem
        rcases List.mem_cons.mp hp with h2 | h2
        · exact absurd (congrArg Prod.fst h2).symm hn
        · exact ⟨p, h2⟩
      have honly2 : ∀ p, ("init", p) ∈ rest → p = "pre-init" := fun p hp =>
        honly p (List.mem_cons_of_mem _ hp)
      exact (runEdges_cons_skip recur "init" ["init", "pre-init"] name prereqName
        rest hn).trans (ih hmem2 honly2)

/-- Under the same restriction, running `pre-init` from the stack `[init]`
recurses into `init` once and surfaces the exact cyclic error. -/
theorem runEdges_preinit_exact (env : JobDecls) (render : List String → String)
    (limitTo : String) (extraArgs : List String) (f : Nat)
    (hmem1 : ∃ p, ("init", p) ∈ iterateDecls env.jobPrereqs none)
    (honly1 : ∀ p, ("init", p) ∈ iterateDecls env.jobPrereqs none → p = "pre-init")
    (l : List (String × String))
    (hmem2 : ("pre-init", "init") ∈ l)
    (honly2 : ∀ p, ("pre-init", p) ∈ l → p = "init") :
    runEdges (runJobFuel env render limitTo extraArgs (f + 1)) "pre-init" ["init"] l =
      ([], some (.cyclic "init" "pre-init" ["init", "pre-init"])) := by
  induction l with
  | nil => exact absurd hmem2 (List.not_mem_nil _)
  | cons ed rest ih =>
    rcases ed with ⟨name, prereqName⟩
    by_cases hn : name = "pre-init"
    · subst hn
      have hpre : prereqName = "init" := honly2 prereqName (by simp)
      subst hpre
      have hg : ¬((["init"] : List String) ≠ [] ∧ "pre-init" ∈ (["init"] : List String)) := by
        simp
      rw [runEdges_cons_recur (runJobFuel env render limitTo extraArgs (f + 1))
        "pre-init" ["init"] "init" rest hg]
      have hinner : runJobFuel env render limitTo extraArgs (f + 1) "init"
          (["init"] ++ ["pre-init"]) =
          ([], some (.cyclic "init" "pre-init" ["init", "pre-init"])) := by
        show runJobFuel env render limitTo extraArgs (f + 1) "init"
          ["init", "pre-init"] = _
        rw [runJobFuel_succ]
        rw [runEdges_cycle_exact (runJobFuel env render limitTo extraArgs f)
          (iterateDecls env.jobPrereqs none) hmem1 honly1]
      rw [hinner]
    · have hmem3 : ("pre-init", "init") ∈ rest := by
        rcases List.mem_cons.mp hmem2 with h2 | h2
        · exact absurd (congrArg Prod.fst h2).symm hn
        · exact h2
      have honly3 : ∀ p, ("pre-init", p) ∈ rest → p = "init" := fun p hp =>
        honly2 p (List.mem_cons_of_mem _ hp)
      exact (runEdges_cons_skip (runJobFuel env render limitTo extraArgs (f + 1))
        "pre-init" ["init"] name prereqName rest hn).trans (ih hmem3 honly3)

/-- Top level of the restricted scenario: from the empty stack, the first
`init` edge recurses into `pre-init` and surfaces the exact cyclic error. -/
theorem runEdges_top_exact (env : JobDecls) (render : List String → String)
    (limitTo : String) (extraArgs : List String) (f : Nat)
    (hmem1 : ∃ p, ("init", p) ∈ iterateDecls env.jobPrereqs none)
    (honly1 : ∀ p, ("init", p) ∈ iterateDecls env.jobPrereqs none → p = "pre-init")
    (hmem2p : ("pre-init", "init") ∈ iterateDecls env.jobPrereqs none)
    (honly2p : ∀ p, ("pre-init", p) ∈ iterateDecls env.jobPrereqs none → p = "init")
    (l : List (String × String))
    (hmem : ("init", "pre-init") ∈ l)
    (honly : ∀ p, ("init", p) ∈ l → p = "pre-init") :
    runEdges (runJobFuel env render limitTo extraArgs (f + 2)) "init" [] l =
      ([], some (.cyclic "init" "pre-init" ["init", "pre-init"])) := by
  induction l with
  | nil => exact absurd hmem (List.not_mem_nil _)
  | cons ed rest ih =>
    rcases ed with ⟨name, prereqName⟩
    by_cases hn : name = "init"
    · subst hn
      have hpre : prereqName = "pre-init" := honly prereqName (by simp)
      subst hpre
      have hg : ¬(([] : List String) ≠ [] ∧ "init" ∈ ([] : List String)) := by simp
      rw [runEdges_cons_recur (runJobFuel env render limitTo extraArgs (f + 2))
        "init" [] "pre-init" rest hg]
      have hinner : runJobFuel env render limitTo extraArgs (f + 2) "pre-init"
          (([] : List String) ++ ["init"]) =
          ([], some (.cyclic "init" "pre-init" ["init", "pre-init"])) := by
        show runJobFuel env render limitTo extraArgs ((f + 1) + 1) "pre-init"
          ["init"] = _
        rw [runJobFuel_succ]
        rw [runEdges_preinit_exact env render limitTo extraArgs f hmem1 honly1
          (iterateDecls env.jobPrereqs none) hmem2p honly2p]
      rw [hinner]
    · have hmem3 : ("init", "pre-init") ∈ rest := by
        rcases List.mem_cons.mp hmem with h2 | h2
        · exact absurd (congrArg Prod.fst h2).symm hn
        · exact h2
      have honly3 : ∀ p, ("init", p) ∈ rest → p = "pre-init" := fun p hp =>
        honly p (List.mem_cons_of_mem _ hp)
      exact (runEdges_cons_skip (runJobFuel env render limitTo extraArgs (f + 2))
        "init" [] name prereqName rest hn).trans (ih hmem3 honly3)

/-- C1, counterexample to the claim as stated: in a prerequisite relation
that does contain the edges `init → pre-init` and `pre-init → init` but also
lists the edges `init → a` and `a → init` first, `run_job("init")` raises the
cyclic error for the `init`/`a` cycle: its message fields name `init` and `a`
and the chain `init -> a`, not the pair `init`/`pre-init` of the claim. -/
theorem c1_counterexample :
    runJobFuel env1cex render0 "" [] 10 "init" [] =
      ([], some (.cyclic "init" "a" ["init", "a"])) ∧
    ("init", "pre-init") ∈ iterateDecls env1cex.jobPrereqs none ∧
    ("pre-init", "init") ∈ iterateDecls env1cex.jobPrereqs none ∧
    ("a" : String) ≠ "pre-init" := by
  refine ⟨by decide, by decide, by decide, by decide⟩

/-- C1 (amended). For every prerequisite relation containing the edges
`init → pre-init` and `pre-init → init`, `run_job("init")` terminates — with
fuel exceeding the number of distinct edge sources the modelled recursion
never exhausts its fuel — and raises a cyclic-prerequisite error carrying the
two job names of the detected edge and the call chain at detection; when
`init` and `pre-init` have no other outgoing edges, that error names exactly
`init` and `pre-init` with the call chain `init -> pre-init` (so the message
names both job names and the full chain `init->pre-init->init`). -/
theorem c1_cycle_detection (env : JobDecls) (render : List String → String)
    (limitTo : String) (extraArgs : List String)
    (h1 : ("init", "pre-init") ∈ iterateDecls env.jobPrereqs none)
    (h2 : ("pre-init", "init") ∈ iterateDecls env.jobPrereqs none) :
    (∀ fuel,
      ((iterateDecls env.jobPrereqs none).map Prod.fst).dedup.length + 1 ≤ fuel →
      ∃ tr a b chain, runJobFuel env render limitTo extraArgs fuel "init" [] =
        (tr, some (.cyclic a b chain))) ∧
    ((∀ p, ("init", p) ∈ iterateDecls env.jobPrereqs none → p = "pre-init") →
      (∀ p, ("pre-init", p) ∈ iterateDecls env.jobPrereqs none → p = "init") →
      ∀ fuel, 3 ≤ fuel →
      runJobFuel env render limitTo extraArgs fuel "init" [] =
        ([], some (.cyclic "init" "pre-init" ["init", "pre-init"]))) := by
  constructor
  · intro fuel hfuel
    obtain ⟨tr, e, he⟩ :=
      runJobFuel_cycle_error env render limitTo extraArgs h1 h2 fuel
    have hno := runJobFuel_no_outOfFuel env render limitTo extraArgs fuel "init" []
      (by simp) (by simp) (by simpa using hfuel)
    rw [he] at hno
    cases e with
    | cyclic a b chain => exact ⟨tr, a, b, chain, he⟩
    | outOfFuel => exact absurd rfl hno
  · intro honly1 honly2 fuel hfuel
    obtain ⟨f, rfl⟩ : ∃ f, fuel = f + 3 := ⟨fuel - 3, by omega⟩
    show runJobFuel env render limitTo extraArgs ((f + 2) + 1) "init" [] = _
    rw [runJobFuel_succ]
    rw [runEdges_top_exact env render limitTo extraArgs f ⟨"pre-init", h1⟩ honly1
      h2 honly2 (iterateDecls env.jobPrereqs none) h1 honly1]

/-- Witness for C1 on the two-edge relation `init → pre-init`,
`pre-init → init` with fuel 3. -/
theorem c1_cycle_detection_witness :
    (("init", "pre-init") ∈ iterateDecls env1.jobPrereqs none ∧
      ("pre-init", "init") ∈ iterateDecls env1.jobPrereqs none ∧
      ((iterateDecls env1.jobPrereqs none).map Prod.fst).dedup.length + 1 ≤ 3) ∧
    (∃ tr a b chain, runJobFuel env1 render0 "" [] 3 "init" [] =
      (tr, some (.cyclic a b chain))) ∧
    runJobFuel env1 render0 "" [] 3 "init" [] =
      ([], some (.cyclic "init" "pre-init" ["init", "pre-init"])) :=
  ⟨⟨by decide, by decide, by decide⟩,
    (c1_cycle_detection env1 render0 "" [] (by decide) (by decide)).1 3 (by decide),
    (c1_cycle_detection env1 render0 "" [] (by decide) (by decide)).2
      (by
        intro p hp
        have hP : iterateDecls env1.jobPrereqs none =
            [("init", "pre-init"), ("pre-init", "init")] := by decide
        rw [hP] at hp
        rcases List.mem_cons.mp hp with h | h
        · exact (Prod.ext_iff.mp h).2
        · rcases List.mem_cons.mp h with h3 | h3
          · have hfst : ("init" : String) = "pre-init" := (Prod.ext_iff.mp h3).1
            exact absurd hfst (by decide)
          · exact absurd h3 (List.not_mem_nil _))
      (by
        intro p hp
        have hP : iterateDecls env1.jobPrereqs none =
            [("init", "pre-init"), ("pre-init", "init")] := by decide
        rw [hP] at hp
        rcases List.mem_cons.mp hp with h | h
        · have hfst : ("pre-init" : String) = "init" := (Prod.ext_iff.mp h).1
          exact absurd hfst (by decide)
        · rcases List.mem_cons.mp h with h3 | h3
          · exact (Prod.ext_iff.mp h3).2
          · exact absurd h3 (List.not_mem_nil _))
      3 (by decide)⟩

/-- Every task collected by `collectTasks` is tagged with the job it was
collected for. -/
theorem collectTasks_job (env : JobDecls) (render : List String → String)
    (jobName : String) (limitedContext : Option String) (extraArgs : List String) :
    ∀ t ∈ collectTasks env render jobName limitedContext extraArgs,
      t.job = jobName := by
  intro t ht
  simp only [collectTasks] at ht
  rcases List.mem_append.mp ht with h | h
  · obtain ⟨x, _, rfl⟩ := List.mem_map.mp h
    rfl
  · obtain ⟨x, _, rfl⟩ := List.mem_map.mp h
    rfl

/-- Every task in the trace of the edge loop satisfies any property enjoyed
by all tasks in the traces of the recursive calls, whatever the outcome. -/
theorem runEdges_trace_all (P : ExecTask → Prop)
    (recur : String → List String → List ExecTask × Option JobError)
    (j : String) (s : List String)
    (hrec : ∀ p tr2 e2, recur p (s ++ [j]) = (tr2, e2) → ∀ t ∈ tr2, P t) :
    ∀ (l : List (String × String)) (tr : List ExecTask) (e : Option JobError),
      runEdges recur j s l = (tr, e) → ∀ t ∈ tr, P t := by
  intro l
  induction l with
  | nil =>
    intro tr e h t ht
    have h1 : tr = [] := (congrArg Prod.fst h).symm
    subst h1
    exact absurd ht (List.not_mem_nil _)
  | cons ed rest ih =>
    intro tr e h t ht
    rcases ed with ⟨name, prereqName⟩
    by_cases hn : j = name
    · subst hn
      by_cases hg : s ≠ [] ∧ j ∈ s
      · rw [runEdges_cons_cycle recur j s prereqName rest hg] at h
        have h1 : tr = [] := (congrArg Prod.fst h).symm
        subst h1
        exact absurd ht (List.not_mem_nil _)
      · rw [runEdges_cons_recur recur j s prereqName rest hg] at h
        rcases hrr : recur prereqName (s ++ [j]) with ⟨tr1, e1⟩
        rw [hrr] at h
        cases e1 with
        | some err =>
          have h1 : tr = tr1 := (congrArg Prod.fst h).symm
          subst h1
          exact hrec prereqName tr (some err) hrr t ht
        | none =>
          rcases hr2 : runEdges recur j s rest with ⟨tr2, e2⟩
          rw [hr2] at h
          have h1 : tr = tr1 ++ tr2 := (congrArg Prod.fst h).symm
          subst h1
          rcases List.mem_append.mp ht with ht1 | ht2
          · exact hrec prereqName tr1 none hrr t ht1
          · exact ih tr2 e2 hr2 t ht2
    · rw [runEdges_cons_skip recur j s name prereqName rest (Ne.symm hn)] at h
      exact ih tr e h t ht

/-- As long as some prerequisite edge leaves `init`, no task of the job
`init` is ever executed by a nested (prerequisite) run: a nested run of
`init` fails before reaching its task list. -/
theorem runJobFuel_nested_no_init (env : JobDecls) (render : List String → String)
    (limitTo : String) (extraArgs : List String)
    (hedge : ∃ p, ("init", p) ∈ iterateDecls env.jobPrereqs none) :
    ∀ (fuel : Nat) (j : String) (s : List String) (tr : List ExecTask)
      (e : Option JobError), "init" ∈ s →
      runJobFuel env render limitTo extraArgs fuel j s = (tr, e) →
      ∀ t ∈ tr, t.job ≠ "init" := by
  intro fuel
  induction fuel with
  | zero =>
    intro j s tr e _ h t ht
    have h1 : tr = [] := (congrArg Prod.fst h).symm
    subst h1
    exact absurd ht (List.not_mem_nil _)
  | succ fuel ih =>
    intro j s tr e hins h t ht
    by_cases hj : j = "init"
    · subst hj
      obtain ⟨e2, he⟩ := runJobFuel_stuck env render limitTo extraArgs (fuel + 1)
        "init" s (List.ne_nil_of_mem hins) hins hedge
      rw [he] at h
      have h1 : tr = [] := (congrArg Prod.fst h).symm
      subst h1
      exact absurd ht (List.not_mem_nil _)
    · rw [runJobFuel_succ] at h
      rcases hre : runEdges (runJobFuel env render limitTo extraArgs fuel) j s
          (iterateDecls env.jobPrereqs none) with ⟨tr1, e1⟩
      rw [hre] at h
      have hP1 : ∀ x ∈ tr1, x.job ≠ "init" :=
        runEdges_trace_all (fun x => x.job ≠ "init")
          (runJobFuel env render limitTo extraArgs fuel) j s
          (fun p tr2 e2 hp2 =>
            ih p (s ++ [j]) tr2 e2 (List.mem_append.mpr (Or.inl hins)) hp2)
          (iterateDecls env.jobPrereqs none) tr1 e1 hre
      cases e1 with
      | some err =>
        have h1 : tr = tr1 := (congrArg Prod.fst h).symm
        subst h1
        exact hP1 t ht
      | none =>
        have h1 : tr1 ++ collectTasks env render j
            (if limitTo = "" then none else some (appContext limitTo)) extraArgs
            = tr := congrArg Prod.fst h
        rw [← h1] at ht
        rcases List.mem_append.mp ht with ht1 | ht2
        · exact hP1 t ht1
        · have hjob := collectTasks_job env render j _ extraArgs t ht2
          intro hcon
          exact hj (hjob.symm.trans hcon)

/-- C5. For every prerequisite relation containing `init → pre-init`, a
completed `run_job("init")` hands every task collected for the `pre-init`
job to the backend strictly before any task collected for the `init` job:
all prerequisite jobs are run to completion before the requested job's tasks
are collected and run, and under this relation no nested run can execute the
`init` tasks early. -/
theorem c5_prereq_tasks_first (env : JobDecls) (render : List String → String)
    (limitTo : String) (extraArgs : List String) (fuel : Nat) (tr : List ExecTask)
    (h1 : ("init", "pre-init") ∈ iterateDecls env.jobPrereqs none)
    (hrun : runJobFuel env render limitTo extraArgs fuel "init" [] = (tr, none)) :
    ∀ (i j : Fin tr.length),
      (tr.get i).job = "pre-init" → (tr.get j).job = "init" → i < j := by
  cases fuel with
  | zero =>
    rw [runJobFuel_zero] at hrun
    have h2 := congrArg Prod.snd hrun
    simp at h2
  | succ fuel =>
    rw [runJobFuel_succ] at hrun
    rcases hre : runEdges (runJobFuel env render limitTo extraArgs fuel) "init" []
        (iterateDecls env.jobPrereqs none) with ⟨tr1, e1⟩
    rw [hre] at hrun
    cases e1 with
    | some err =>
      have h2 := congrArg Prod.snd hrun
      simp at h2
    | none =>
      have h1f : tr1 ++ collectTasks env render "init"
          (if limitTo = "" then none else some (appContext limitTo)) extraArgs
          = tr := congrArg Prod.fst hrun
      have hnoinit : ∀ x ∈ tr1, x.job ≠ "init" :=
        runEdges_trace_all (fun x => x.job ≠ "init")
          (runJobFuel env render limitTo extraArgs fuel) "init" []
          (fun p tr2 e2 hp2 =>
            runJobFuel_nested_no_init env render limitTo extraArgs
              ⟨"pre-init", h1⟩ fuel p ([] ++ ["init"]) tr2 e2 (by simp) hp2)
          (iterateDecls env.jobPrereqs none) tr1 none hre
      subst h1f
      intro i j hpi hij
      by_contra hcon
      push_neg at hcon
      have hc2 : j.val ≤ i.val := hcon
      have hi : i.val < tr1.length := by
        by_contra hge
        push_neg at hge
        have hmem : (tr1 ++ collectTasks env render "init"
            (if limitTo = "" then none else some (appContext limitTo)) extraArgs).get i
            ∈ collectTasks env render "init"
              (if limitTo = "" then none else some (appContext limitTo)) extraArgs := by
          rw [List.get_eq_getElem, List.getElem_append_right hge]
          exact List.getElem_mem _
        have hj2 := collectTasks_job env render "init" _ extraArgs _ hmem
        rw [hpi] at hj2
        exact absurd hj2 (by decide)
      have hjge : tr1.length ≤ j.val := by
        by_contra hlt
        push_neg at hlt
        have hmem : (tr1 ++ collectTasks env render "init"
            (if limitTo = "" then none else some (appContext limitTo)) extraArgs).get j
            ∈ tr1 := by
          rw [List.get_eq_getElem, List.getElem_append_left hlt]
          exact List.getElem_mem _
        exact hnoinit _ hmem hij
      omega

/-- Witness for C5 on the two-job scenario: the single `pre-init` task runs
at position 0 and the single `init` task at position 1. -/
theorem c5_prereq_tasks_first_witness :
    (("init", "pre-init") ∈ iterateDecls env5.jobPrereqs none ∧
      runJobFuel env5 render0 "" [] 3 "init" [] =
        ([⟨"pre-init", "svcP", ["p"]⟩, ⟨"init", "svcI", ["i"]⟩], none)) ∧
    (⟨0, by decide⟩ : Fin ([(⟨"pre-init", "svcP", ["p"]⟩ : ExecTask),
      ⟨"init", "svcI", ["i"]⟩].length)) < ⟨1, by decide⟩ :=
  ⟨⟨by decide, by decide⟩,
    c5_prereq_tasks_first env5 render0 "" [] 3
      [⟨"pre-init", "svcP", ["p"]⟩, ⟨"init", "svcI", ["i"]⟩]
      (by decide) (by decide) ⟨0, by decide⟩ ⟨1, by decide⟩ (by decide) (by decide)⟩

/-- C6, counterexample to the claim as stated: with a prerequisite edge
`init → preX` declared only under the `app:cms` scope,
`run_job("init", scopeLimit="lms")` still runs the prerequisite job `preX`
(executing its `app:lms`-scoped task) — the prerequisite lookup is not
restricted to the requested scope, although the claim says prerequisites
declared outside that scope are invisible. -/
theorem c6_counterexample :
    runJobFuel env6 render0 "lms" [] 5 "init" [] =
      ([⟨"preX", "svcA", ["cmdA"]⟩, ⟨"init", "svcB", ["cmdB"]⟩], none) ∧
    env6.jobPrereqs = [⟨["app:cms"], [("init", "preX")]⟩] ∧
    ("app:cms" : String) ≠ appContext "lms" := by
  refine ⟨by decide, by decide, by decide⟩

/-- C6 (amended). When `run_job` is called with a non-empty scope limit, the
task lookup is restricted to the corresponding app scope: every task handed
to the backend belongs to the `collectTasks` lookup of its job under the
`app:<limit>` context, and every item produced by a scoped lookup comes from
a declaration whose scope set contains that scope. Prerequisite lookups,
however, are not scope-restricted: a prerequisite edge declared only under a
different scope still drives execution (concrete instance: the `app:cms`
prerequisite of `env6` runs job `preX` under scope limit `lms`). -/
theorem c6_scope_visibility (env : JobDecls) (render : List String → String)
    (limitTo : String) (extraArgs : List String) (hlim : limitTo ≠ "") :
    (∀ (fuel : Nat) (j : String) (s : List String) (tr : List ExecTask)
        (e : Option JobError),
      runJobFuel env render limitTo extraArgs fuel j s = (tr, e) →
      ∀ t ∈ tr,
        t ∈ collectTasks env render t.job (some (appContext limitTo)) extraArgs) ∧
    (∀ (τ : Type) (decls : List (Decl τ)) (ctx : String) (item : τ), ctx ≠ "" →
      item ∈ iterateDecls decls (some ctx) →
      ∃ d ∈ decls, item ∈ d.items ∧ ctx ∈ d.contexts) ∧
    runJobFuel env6 render0 "lms" [] 5 "init" [] =
      ([⟨"preX", "svcA", ["cmdA"]⟩, ⟨"init", "svcB", ["cmdB"]⟩], none) := by
  have hctx : (if limitTo = "" then none else some (appContext limitTo)) =
      some (appContext limitTo) := if_neg hlim
  refine ⟨?_, ?_, by decide⟩
  · intro fuel
    induction fuel with
    | zero =>
      intro j s tr e h t ht
      have htr : tr = [] := (congrArg Prod.fst h).symm
      subst htr
      exact absurd ht (List.not_mem_nil _)
    | succ fuel ih =>
      intro j s tr e h t ht
      rw [runJobFuel_succ] at h
      rcases hre : runEdges (runJobFuel env render limitTo extraArgs fuel) j s
          (iterateDecls env.jobPrereqs none) with ⟨tr1, e1⟩
      rw [hre] at h
      have hP1 : ∀ x ∈ tr1,
          x ∈ collectTasks env render x.job (some (appContext limitTo)) extraArgs :=
        runEdges_trace_all _ (runJobFuel env render limitTo extraArgs fuel) j s
          (fun p tr2 e2 hp2 => ih p (s ++ [j]) tr2 e2 hp2)
          (iterateDecls env.jobPrereqs none) tr1 e1 hre
      cases e1 with
      | some err =>
        have htr : tr = tr1 := (congrArg Prod.fst h).symm
        subst htr
        exact hP1 t ht
      | none =>
        have h1 : tr1 ++ collectTasks env render j
            (if limitTo = "" then none else some (appContext limitTo)) extraArgs
            = tr := congrArg Prod.fst h
        rw [← h1] at ht
        rcases List.mem_append.mp ht with ht1 | ht2
        · exact hP1 t ht1
        · have hjob := collectTasks_job env render j _ extraArgs t ht2
          rw [hjob]
          rw [hctx] at ht2
          exact ht2
  · intro τ decls ctx item hc hmem
    simp only [iterateDecls] at hmem
    rcases List.mem_flatMap.mp hmem with ⟨d, hd, hitem⟩
    have hd2 := List.mem_filter.mp hd
    refine ⟨d, hd2.1, hitem, ?_⟩
    have h3 := hd2.2
    rw [contextMatchesB_of_ne ctx hc d.contexts] at h3
    simpa using h3

/-- Witness for C6 with scope limit `"lms"`: the `preX` task of the `env6`
run is a member of its job's `app:lms`-scoped lookup, and a concrete scoped
lookup traces back to an `app:lms`-tagged declaration. -/
theorem c6_scope_visibility_witness :
    ("lms" : String) ≠ "" ∧
    (⟨"preX", "svcA", ["cmdA"]⟩ : ExecTask) ∈
      collectTasks env6 render0 "preX" (some (appContext "lms")) [] ∧
    ∃ d ∈ [(⟨["app:lms"], [7]⟩ : Decl Nat)], (7 : Nat) ∈ d.items ∧
      "app:lms" ∈ d.contexts :=
  ⟨by decide,
    (c6_scope_visibility env6 render0 "lms" [] (by decide)).1 5 "init" []
      [⟨"preX", "svcA", ["cmdA"]⟩, ⟨"init", "svcB", ["cmdB"]⟩] none (by decide)
      ⟨"preX", "svcA", ["cmdA"]⟩ (by decide),
    (c6_scope_visibility env6 render0 "lms" [] (by decide)).2.1 Nat
      [⟨["app:lms"], [7]⟩] "app:lms" 7 (by decide) (by decide)⟩

end Tutor
